import Mathlib

/-!
# DNS-01 challenge provider for DNSimple, and the DNS provider registry

A shallow embedding of `providers/dns/dnsimple/dnsimple.go` and
`providers/dns/dns_providers.go`.

* Go strings are modelled by `String`; offsets returned by `strings.Index` and
  used by slicing count characters, which selects the same substrings as Go's
  byte offsets do on UTF-8 text.
* Go `error` values are modelled by their message (`Error := String`); a Go
  result `(v, err)` is an `Except Error _`, a lone `error` is an
  `Option Error` (`none` is `nil`).
* The DNSimple API client is a record of five operations over an explicit
  backend state `σ`; every operation returns its result together with the next
  backend state, also when it fails.
* Package `acme` is consumed: `ToFqdn`, `UnFqdn` and `DNS01Record` follow the
  spec, the DNS zone lookup, the digest and the default TTL are parameters
  (`Env`).
* Which backend calls a run makes is read off `traced c`, the client `c` with a
  journal of its calls; `memClient` is an in-memory backend.
-/

set_option autoImplicit false

namespace Lego

/-- Go `error`, represented by its message. -/
abbrev Error := String

/-! ## `strings.Index` -/

/-- Scan of `strings.Index`: the offset (counted from `i`) of the first position
at which `substr` starts, or `-1` when there is none. -/
def indexFrom (substr : List Char) : List Char → Nat → Int
  | [], i => if substr = [] then (i : Int) else -1
  | c :: s, i =>
    if substr.isPrefixOf (c :: s) then (i : Int) else indexFrom substr s (i + 1)

/-- Go `strings.Index(s, substr)`: index of the first instance of `substr` in
`s`, or `-1` if `substr` is not present in `s`. -/
def Index (s substr : String) : Int := indexFrom substr.data s.data 0

/-- Go slice expression `s[:n]`. -/
def sliceTo (s : String) (n : Nat) : String := String.mk (s.data.take n)

/-! ## Package `acme` (consumed) -/

/-- Modelled from the spec: `acme.ToFqdn`, which is not part of the sources at
hand; the spec says the challenge name is "dot-terminated internally", so the
name gets a trailing dot unless it already ends in one. -/
def ToFqdn (name : String) : String :=
  if name.data.getLast? = some '.' then name else name ++ "."

/-- Modelled from the spec: `acme.UnFqdn`, which is not part of the sources at
hand; the spec says names are "normalized without trailing dot for
comparisons", so one trailing dot is removed when there is one. -/
def UnFqdn (name : String) : String :=
  if name.data.getLast? = some '.' then String.mk name.data.dropLast else name

/-- What the provider consumes from package `acme` and from the outside world:
the zone lookup over live DNS, the digest of the key authorization and the
default TTL. -/
structure Env where
  /-- The function `acme.FindZoneByFqdn(fqdn, acme.RecursiveNameservers)`. -/
  FindZoneByFqdn : String → Except Error String
  /-- The digest of the key authorization that is published as the TXT value. -/
  keyAuthDigest : String → String
  /-- The constant `acme.DefaultTTL`. -/
  DefaultTTL : Int

/-- Modelled from the spec: `acme.DNS01Record`, which is not part of the sources
at hand; the spec gives `fqdn = "_acme-challenge." + domain` (dot-terminated),
`value = digest(keyAuth)` and `ttl = fixed default`. -/
def DNS01Record (env : Env) (domain keyAuth : String) : String × String × Int :=
  ("_acme-challenge." ++ domain ++ ".", env.keyAuthDigest keyAuth, env.DefaultTTL)

/-! ## Package `dnsimple-go` (consumed): data and client -/

/-- The type `dnsimple.Zone`, reduced to the fields the provider reads. -/
structure Zone where
  ID : Int
  Name : String
  deriving DecidableEq, Repr

/-- Go zero value of `dnsimple.Zone` (`var hostedZone dnsimple.Zone`). -/
instance : Inhabited Zone := ⟨⟨0, ""⟩⟩

/-- The type `dnsimple.ZoneRecord`, reduced to the fields the provider reads or
writes; the field `Type` is spelled `Type_`. -/
structure ZoneRecord where
  ID : Int
  ZoneID : String
  Name : String
  Content : String
  TTL : Int
  Type_ : String
  deriving DecidableEq, Repr

/-- The type `dnsimple.Account`, reduced to its identifier. -/
structure Account where
  ID : Int
  deriving DecidableEq, Repr

/-- The type `dnsimple.WhoamiData`; `Account` is a pointer that may be `nil`. -/
structure WhoamiData where
  Account : Option Account
  deriving DecidableEq, Repr

/-- The calls the provider makes on `*dnsimple.Client`, over a backend state
`σ`. Each call returns the `Data` of its response, or the error. -/
structure Client (σ : Type) where
  /-- The call `client.Identity.Whoami()`. -/
  Whoami : σ → Except Error WhoamiData × σ
  /-- The call `client.Zones.ListZones(accountID, &ZoneListOptions{NameLike})`. -/
  ListZones : String → String → σ → Except Error (List Zone) × σ
  /-- The call `client.Zones.ListRecords(accountID, zone, &ZoneRecordListOptions{Name, Type})`. -/
  ListRecords : String → String → String → String → σ → Except Error (List ZoneRecord) × σ
  /-- The call `client.Zones.CreateRecord(accountID, zone, attributes)`. -/
  CreateRecord : String → String → ZoneRecord → σ → Except Error ZoneRecord × σ
  /-- The call `client.Zones.DeleteRecord(accountID, zoneID, recordID)`. -/
  DeleteRecord : String → String → Int → σ → Except Error Unit × σ

/-! ## Package `dnsimple`: the provider -/

section Provider

variable {σ : Type}

/-- Method `DNSProvider.extractRecordName`. -/
def extractRecordName (fqdn domain : String) : String :=
  let name := UnFqdn fqdn
  let idx := Index name ("." ++ domain)
  if idx != -1 then sliceTo name idx.toNat else name

/-- Method `DNSProvider.getAccountID`; `strconv.FormatInt(id, 10)` is the
decimal rendering `toString`. -/
def getAccountID (c : Client σ) (s : σ) : Except Error String × σ :=
  match c.Whoami s with
  | (.error err, s1) => (.error err, s1)
  | (.ok data, s1) =>
    match data.Account with
    | none =>
      (.error "DNSimple user tokens are not supported, please use an account token", s1)
    | some account => (.ok (toString account.ID), s1)

/-- The `for _, zone := range zones.Data` loop of `getHostedZone`, started from
the current value of `hostedZone`. -/
def selectHostedZone (zoneName : String) : List Zone → Zone → Zone
  | [], hostedZone => hostedZone
  | zone :: rest, hostedZone =>
    selectHostedZone zoneName rest (if zone.Name = zoneName then zone else hostedZone)

/-- Method `DNSProvider.getHostedZone`. -/
def getHostedZone (env : Env) (c : Client σ) (domain : String) (s : σ) :
    Except Error String × σ :=
  match env.FindZoneByFqdn (ToFqdn domain) with
  | .error err => (.error err, s)
  | .ok authZone =>
    match getAccountID c s with
    | (.error err, s1) => (.error err, s1)
    | (.ok accountID, s1) =>
      let zoneName := UnFqdn authZone
      match c.ListZones accountID zoneName s1 with
      | (.error err, s2) => (.error ("DNSimple API call failed: " ++ err), s2)
      | (.ok zones, s2) =>
        let hostedZone := selectHostedZone zoneName zones default
        if hostedZone.ID = 0 then
          (.error ("zone " ++ authZone ++ " not found in DNSimple for domain " ++ domain), s2)
        else (.ok hostedZone.Name, s2)

/-- Method `DNSProvider.findTxtRecords`. -/
def findTxtRecords (env : Env) (c : Client σ) (domain fqdn : String) (s : σ) :
    Except Error (List ZoneRecord) × σ :=
  match getHostedZone env c domain s with
  | (.error err, s1) => (.error err, s1)
  | (.ok zoneName, s1) =>
    match getAccountID c s1 with
    | (.error err, s2) => (.error err, s2)
    | (.ok accountID, s2) =>
      let recordName := extractRecordName fqdn zoneName
      match c.ListRecords accountID zoneName recordName "TXT" s2 with
      | (.error err, s3) => (.error ("DNSimple API call has failed: " ++ err), s3)
      | (.ok data, s3) => (.ok data, s3)

/-- Method `DNSProvider.newTxtRecord`; the fields it does not set keep their
zero value. -/
def newTxtRecord (zoneName fqdn value : String) (ttl : Int) : ZoneRecord :=
  let name := extractRecordName fqdn zoneName
  { ID := 0, ZoneID := "", Type_ := "TXT", Name := name, Content := value, TTL := ttl }

/-- Method `DNSProvider.Present`. -/
def Present (env : Env) (c : Client σ) (domain _token keyAuth : String) (s : σ) :
    Option Error × σ :=
  let (fqdn, value, ttl) := DNS01Record env domain keyAuth
  match getHostedZone env c domain s with
  | (.error err, s1) => (some err, s1)
  | (.ok zoneName, s1) =>
    match getAccountID c s1 with
    | (.error err, s2) => (some err, s2)
    | (.ok accountID, s2) =>
      let recordAttributes := newTxtRecord zoneName fqdn value ttl
      match c.CreateRecord accountID zoneName recordAttributes s2 with
      | (.error err, s3) => (some ("DNSimple API call failed: " ++ err), s3)
      | (.ok _, s3) => (none, s3)

/-- The `for _, rec := range records` loop of `CleanUp`. -/
def deleteRecords (c : Client σ) (accountID : String) : List ZoneRecord → σ → Option Error × σ
  | [], s => (none, s)
  | rec :: rest, s =>
    match c.DeleteRecord accountID rec.ZoneID rec.ID s with
    | (.error err, s1) => (some err, s1)
    | (.ok _, s1) => deleteRecords c accountID rest s1

/-- Method `DNSProvider.CleanUp`. -/
def CleanUp (env : Env) (c : Client σ) (domain _token keyAuth : String) (s : σ) :
    Option Error × σ :=
  let (fqdn, _, _) := DNS01Record env domain keyAuth
  match findTxtRecords env c domain fqdn s with
  | (.error err, s1) => (some err, s1)
  | (.ok records, s1) =>
    match getAccountID c s1 with
    | (.error err, s2) => (some err, s2)
    | (.ok accountID, s2) => deleteRecords c accountID records s2

end Provider

/-! ## Package `dns`: the provider registry -/

/-- The constructors the registry dispatches to: `pkg.NewDNSProvider` of each
imported provider package, and `acme.NewDNSProviderManual` (`manual`). -/
inductive ProviderPkg where
  | acmedns
  | azure
  | auroradns
  | bluecat
  | cloudflare
  | cloudxns
  | digitalocean
  | dnsimple
  | dnsmadeeasy
  | dnspod
  | duckdns
  | dyn
  | fastdns
  | exoscale
  | gandi
  | gandiv5
  | glesys
  | gcloud
  | godaddy
  | lightsail
  | linode
  | manual
  | namecheap
  | namedotcom
  | nifcloud
  | rackspace
  | route53
  | rfc2136
  | sakuracloud
  | vultr
  | ovh
  | pdns
  | ns1
  | otc
  | exec
  | vegadns
  deriving DecidableEq, Repr

/-- The `case` labels of the `switch name` in `NewDNSChallengeProviderByName`,
in source order. -/
def providerNames : List String :=
  ["acme-dns", "azure", "auroradns", "bluecat", "cloudflare", "cloudxns", "digitalocean",
   "dnsimple", "dnsmadeeasy", "dnspod", "duckdns", "dyn", "fastdns", "exoscale", "gandi",
   "gandiv5", "glesys", "gcloud", "godaddy", "lightsail", "linode", "manual",
   "namecheap", "namedotcom", "nifcloud", "rackspace", "route53", "rfc2136",
   "sakuracloud", "vultr", "ovh", "pdns", "ns1", "otc", "exec", "vegadns"]

/-- Function `NewDNSChallengeProviderByName`. The constructors read credentials
from the process environment, so they are a parameter: `construct pkg` is the
pair `(provider, err)` that the constructor of `pkg` returns, `none` being
`nil`. -/
def NewDNSChallengeProviderByName {P : Type} (construct : ProviderPkg → Option P × Option Error)
    (name : String) : Option P × Option Error :=
  if name = "acme-dns" then construct .acmedns
  else if name = "azure" then construct .azure
  else if name = "auroradns" then construct .auroradns
  else if name = "bluecat" then construct .bluecat
  else if name = "cloudflare" then construct .cloudflare
  else if name = "cloudxns" then construct .cloudxns
  else if name = "digitalocean" then construct .digitalocean
  else if name = "dnsimple" then construct .dnsimple
  else if name = "dnsmadeeasy" then construct .dnsmadeeasy
  else if name = "dnspod" then construct .dnspod
  else if name = "duckdns" then construct .duckdns
  else if name = "dyn" then construct .dyn
  else if name = "fastdns" then construct .fastdns
  else if name = "exoscale" then construct .exoscale
  else if name = "gandi" then construct .gandi
  else if name = "gandiv5" then construct .gandiv5
  else if name = "glesys" then construct .glesys
  else if name = "gcloud" then construct .gcloud
  else if name = "godaddy" then construct .godaddy
  else if name = "lightsail" then construct .lightsail
  else if name = "linode" then construct .linode
  else if name = "manual" then construct .manual
  else if name = "namecheap" then construct .namecheap
  else if name = "namedotcom" then construct .namedotcom
  else if name = "nifcloud" then construct .nifcloud
  else if name = "rackspace" then construct .rackspace
  else if name = "route53" then construct .route53
  else if name = "rfc2136" then construct .rfc2136
  else if name = "sakuracloud" then construct .sakuracloud
  else if name = "vultr" then construct .vultr
  else if name = "ovh" then construct .ovh
  else if name = "pdns" then construct .pdns
  else if name = "ns1" then construct .ns1
  else if name = "otc" then construct .otc
  else if name = "exec" then construct .exec
  else if name = "vegadns" then construct .vegadns
  else (none, some ("unrecognised DNS provider: " ++ name))

/-! ## Observing the backend calls -/

/-- One call on the DNSimple client, with its arguments and the error it
returned (`none` when it succeeded). -/
inductive Call where
  | Whoami (err : Option Error)
  | ListZones (accountID nameLike : String) (err : Option Error)
  | ListRecords (accountID zone name type : String) (err : Option Error)
  | CreateRecord (accountID zone : String) (attributes : ZoneRecord) (err : Option Error)
  | DeleteRecord (accountID zoneID : String) (recordID : Int) (err : Option Error)
  deriving DecidableEq, Repr

/-- Whether the call is the identity call. -/
def Call.isWhoami : Call → Bool
  | .Whoami _ => true
  | _ => false

/-- Whether the call lists records. -/
def Call.isListRecords : Call → Bool
  | .ListRecords _ _ _ _ _ => true
  | _ => false

/-- Whether the call creates a record. -/
def Call.isCreateRecord : Call → Bool
  | .CreateRecord _ _ _ _ => true
  | _ => false

/-- Whether the call deletes a record. -/
def Call.isDeleteRecord : Call → Bool
  | .DeleteRecord _ _ _ _ => true
  | _ => false

/-- The error of a Go result pair. -/
def errOf {α : Type} : Except Error α → Option Error
  | .error err => some err
  | .ok _ => none

/-- The client `c` with a journal: every call is forwarded to `c` unchanged and
appended, with its outcome, to the list of calls made so far. -/
def traced {σ : Type} (c : Client σ) : Client (σ × List Call) where
  Whoami := fun w =>
    let r := c.Whoami w.1
    (r.1, (r.2, w.2 ++ [Call.Whoami (errOf r.1)]))
  ListZones := fun accountID nameLike w =>
    let r := c.ListZones accountID nameLike w.1
    (r.1, (r.2, w.2 ++ [Call.ListZones accountID nameLike (errOf r.1)]))
  ListRecords := fun accountID zone name type w =>
    let r := c.ListRecords accountID zone name type w.1
    (r.1, (r.2, w.2 ++ [Call.ListRecords accountID zone name type (errOf r.1)]))
  CreateRecord := fun accountID zone attributes w =>
    let r := c.CreateRecord accountID zone attributes w.1
    (r.1, (r.2, w.2 ++ [Call.CreateRecord accountID zone attributes (errOf r.1)]))
  DeleteRecord := fun accountID zoneID recordID w =>
    let r := c.DeleteRecord accountID zoneID recordID w.1
    (r.1, (r.2, w.2 ++ [Call.DeleteRecord accountID zoneID recordID (errOf r.1)]))

/-! ## An in-memory backend -/

/-- State of the in-memory backend: the account of the token, the zones of the
account, the records of all zones and the next unused record identifier. -/
structure MemState where
  account : Option Account
  zones : List Zone
  records : List ZoneRecord
  nextID : Int
  deriving DecidableEq, Repr

/-- Whether record `r` is the record `recordID` of zone `zoneID`. -/
def isRecord (zoneID : String) (recordID : Int) (r : ZoneRecord) : Bool :=
  r.ZoneID = zoneID && r.ID = recordID

/-- Whether record `r` is a record of zone `zone` with the given name and type. -/
def matchesRecord (zone name type : String) (r : ZoneRecord) : Bool :=
  r.ZoneID = zone && r.Name = name && r.Type_ = type

/-- The in-memory backend. `Whoami` answers with the stored account,
`ListZones` with the zones whose name contains the filter, `ListRecords` with
every record of the zone that has the given name and type; `CreateRecord`
appends the record under a fresh identifier; `DeleteRecord` removes the record
with the given identifier, and fails when the zone has no such record. -/
def memClient : Client MemState where
  Whoami := fun s => (.ok { Account := s.account }, s)
  ListZones := fun _ nameLike s =>
    (.ok (s.zones.filter (fun z => Index z.Name nameLike != -1)), s)
  ListRecords := fun _ zone name type s =>
    (.ok (s.records.filter (matchesRecord zone name type)), s)
  CreateRecord := fun _ zone attributes s =>
    let r := { attributes with ID := s.nextID, ZoneID := zone }
    (.ok r, { s with records := s.records ++ [r], nextID := s.nextID + 1 })
  DeleteRecord := fun _ zoneID recordID s =>
    if s.records.any (isRecord zoneID recordID) then
      (.ok (), { s with records := s.records.filter (fun r => !isRecord zoneID recordID r) })
    else (.error "record not found", s)

/-- The client `c`, except that deleting the record `bad` is refused. -/
def refuseDelete {σ : Type} (bad : Int) (c : Client σ) : Client σ :=
  { c with
    DeleteRecord := fun accountID zoneID recordID s =>
      if recordID = bad then (.error "record is locked", s)
      else c.DeleteRecord accountID zoneID recordID s }

/-- Record identifiers are pairwise distinct and below the next unused one. -/
def MemState.WF (s : MemState) : Prop :=
  (s.records.map (fun r => r.ID)).Nodup ∧ ∀ r ∈ s.records, r.ID < s.nextID

/-! ## Sequences of provider calls -/

/-- One call on the provider: `Present` or `CleanUp`, with its arguments. -/
inductive Op where
  | Present (domain token keyAuth : String)
  | CleanUp (domain token keyAuth : String)
  deriving DecidableEq, Repr

/-- Whether the call is a `Present`. -/
def Op.isPresent : Op → Bool
  | .Present _ _ _ => true
  | .CleanUp _ _ _ => false

/-- Whether the call is a `CleanUp`. -/
def Op.isCleanUp : Op → Bool
  | .Present _ _ _ => false
  | .CleanUp _ _ _ => true

/-- Running one provider call. -/
def Op.run {σ : Type} (env : Env) (c : Client σ) : Op → σ → Option Error × σ
  | .Present domain token keyAuth, s => Lego.Present env c domain token keyAuth s
  | .CleanUp domain token keyAuth, s => Lego.CleanUp env c domain token keyAuth s

/-- Running provider calls one after the other on the same provider instance:
the errors returned, in call order, and the final backend state. -/
def runOps {σ : Type} (env : Env) (c : Client σ) : List Op → σ → List (Option Error) × σ
  | [], s => ([], s)
  | op :: ops, s =>
    let r := op.run env c s
    let rest := runOps env c ops r.2
    (r.1 :: rest.1, rest.2)

/-! ## Sample data -/

/-- A DNS view in which every name belongs to the zone `example.com.`. -/
def sampleEnv : Env where
  FindZoneByFqdn := fun _ => .ok "example.com."
  keyAuthDigest := fun keyAuth => keyAuth
  DefaultTTL := 120

/-- An account that hosts the zone `example.com` and has no records yet. -/
def sampleState : MemState where
  account := some { ID := 1 }
  zones := [{ ID := 7, Name := "example.com" }]
  records := []
  nextID := 1

/-- The sample account when the backend reports the zone `example.com` under
the identifier `0`. -/
def zeroIDState : MemState :=
  { sampleState with zones := [{ ID := 0, Name := "example.com" }] }

/-- A challenge record of `www.example.com` in the zone `example.com`. -/
def sampleRecord (id : Int) : ZoneRecord :=
  { ID := id, ZoneID := "example.com", Name := "_acme-challenge.www", Content := "ka",
    TTL := 120, Type_ := "TXT" }

/-- The sample account after three `Present` calls for `www.example.com`. -/
def sampleThree : MemState :=
  { sampleState with
    records := [sampleRecord 1, sampleRecord 2, sampleRecord 3], nextID := 4 }

/-- The calls of a successful zone resolution followed by a successful account
lookup on the sample account. -/
def lookupCalls : List Call :=
  [Call.Whoami none, Call.ListZones "1" "example.com" none, Call.Whoami none]

/-! ## The record name -/

/-- A search string longer than the text is not found. -/
theorem indexFrom_eq_neg_one_of_length_lt (substr : List Char) :
    ∀ (s : List Char) (i : Nat), s.length < substr.length → indexFrom substr s i = -1 := by
  intro s
  induction s with
  | nil =>
    intro i h
    have hne : substr ≠ [] := by
      intro h0
      simp [h0] at h
    simp [indexFrom, hne]
  | cons c s ih =>
    intro i h
    have hnp : substr.isPrefixOf (c :: s) = false := by
      cases hp : substr.isPrefixOf (c :: s) with
      | false => rfl
      | true =>
        have hle := (List.isPrefixOf_iff_prefix.mp hp).length_le
        omega
    have hlt : s.length < substr.length := by
      simp only [List.length_cons] at h
      omega
    simp [indexFrom, hnp, ih (i + 1) hlt]

/-- Removing the trailing dot does not make a name longer. -/
theorem UnFqdn_length_le (name : String) : (UnFqdn name).data.length ≤ name.data.length := by
  unfold UnFqdn
  split
  · simp
  · exact Nat.le_refl _

/-- The scan answers `-1` exactly when `substr` does not occur in the text. -/
theorem indexFrom_eq_neg_one_iff (substr : List Char) :
    ∀ (s : List Char) (i : Nat), indexFrom substr s i = -1 ↔ ¬ substr <:+: s := by
  intro s
  induction s with
  | nil =>
    intro i
    by_cases h : substr = []
    · simp [indexFrom, h]
    · simp [indexFrom, h]
  | cons c s ih =>
    intro i
    by_cases hp : substr.isPrefixOf (c :: s) = true
    · have hpre : substr <+: c :: s := List.isPrefixOf_iff_prefix.mp hp
      have hinf : substr <:+: c :: s := hpre.isInfix
      simp only [indexFrom, hp, if_true, hinf, not_true_eq_false, iff_false]
      omega
    · have hpre : ¬ substr <+: c :: s := fun h => hp (List.isPrefixOf_iff_prefix.mpr h)
      simp only [indexFrom, hp, Bool.false_eq_true, if_false, ih (i + 1),
        List.infix_cons_iff, hpre, false_or]

/-- When the text before the first `.` has no dot, a search string that starts
with `.` and follows that text is found right after it. -/
theorem indexFrom_after_dotless (a t : List Char) :
    ∀ (r : List Char) (i : Nat), '.' ∉ r →
      indexFrom ('.' :: a) (r ++ '.' :: (a ++ t)) i = ((i + r.length : Nat) : Int) := by
  intro r
  induction r with
  | nil =>
    intro i _
    have hp : ('.' :: a).isPrefixOf ('.' :: (a ++ t)) = true :=
      List.isPrefixOf_iff_prefix.mpr ⟨t, rfl⟩
    simp [indexFrom, hp]
  | cons c r ih =>
    intro i hmem
    have hc : c ≠ '.' := fun h => hmem (by simp [h])
    have hr : '.' ∉ r := fun h => hmem (List.mem_cons_of_mem _ h)
    have hp : ('.' :: a).isPrefixOf (c :: (r ++ '.' :: (a ++ t))) = false := by
      cases hq : ('.' :: a).isPrefixOf (c :: (r ++ '.' :: (a ++ t))) with
      | false => rfl
      | true =>
        obtain ⟨u, hu⟩ := List.isPrefixOf_iff_prefix.mp hq
        simp only [List.cons_append, List.cons.injEq] at hu
        exact absurd hu.1.symm hc
    have hp2 : ¬ (('.' :: a).isPrefixOf (c :: (r ++ '.' :: (a ++ t))) = true) := by
      rw [hp]
      exact Bool.false_ne_true
    rw [List.cons_append, indexFrom, if_neg hp2, ih (i + 1) hr, List.length_cons]
    congr 1
    omega

/-- A name in which `"." + domain` does not occur is returned unstripped. -/
theorem extractRecordName_of_absent (fqdn domain : String)
    (h : ¬ ("." ++ domain).data <:+: (UnFqdn fqdn).data) :
    extractRecordName fqdn domain = UnFqdn fqdn := by
  have hidx : Index (UnFqdn fqdn) ("." ++ domain) = -1 :=
    (indexFrom_eq_neg_one_iff _ _ 0).mpr h
  simp [extractRecordName, hidx]

/-- A name made of a dotless part, a dot and the domain is cut after the dotless
part. -/
theorem extractRecordName_of_data (fqdn domain : String) (r : List Char) (hr : '.' ∉ r)
    (h : (UnFqdn fqdn).data = r ++ '.' :: domain.data) :
    extractRecordName fqdn domain = String.mk r := by
  have hidx : Index (UnFqdn fqdn) ("." ++ domain) = (r.length : Int) := by
    unfold Index
    rw [h]
    have := indexFrom_after_dotless domain.data [] r 0 hr
    simp only [List.append_nil, Nat.zero_add] at this
    exact this
  have hne : ((r.length : Int) != -1) = true := by
    simp only [bne_iff_ne, ne_eq]
    omega
  simp only [extractRecordName, hidx, hne, if_true, sliceTo, Int.toNat_ofNat, h]
  rw [List.take_left']
  rfl

/-- For a relative name without a dot and an apex that does not end in a dot,
`extractRecordName` returns the relative name, with or without a trailing dot
on the fqdn. -/
theorem extractRecordName_dotless_rel (rel apex : String) (hrel : '.' ∉ rel.data)
    (hapex : apex.data.getLast? ≠ some '.') :
    extractRecordName (rel ++ "." ++ apex) apex = rel ∧
    extractRecordName (rel ++ "." ++ apex ++ ".") apex = rel := by
  constructor
  · by_cases he : apex.data = []
    · have hun : UnFqdn (rel ++ "." ++ apex) = rel := by
        unfold UnFqdn
        simp [String.data_append, he]
      have hnot : ¬ ("." ++ apex).data <:+: (UnFqdn (rel ++ "." ++ apex)).data := by
        rw [hun]
        intro hinf
        apply hrel
        apply hinf.subset
        simp [String.data_append]
      rw [extractRecordName_of_absent _ _ hnot, hun]
    · have hlast : (rel ++ "." ++ apex).data.getLast? ≠ some '.' := by
        simp only [String.data_append, List.getLast?_append]
        cases hl : apex.data.getLast? with
        | none => exact absurd (List.getLast?_eq_none_iff.mp hl) he
        | some c =>
          rw [hl] at hapex
          simpa using hapex
      have hun : UnFqdn (rel ++ "." ++ apex) = rel ++ "." ++ apex := by
        rw [UnFqdn, if_neg hlast]
      exact extractRecordName_of_data _ _ rel.data hrel (by rw [hun]; simp [String.data_append])
  · have hl : (rel ++ "." ++ apex ++ ".").data.getLast? = some '.' := by
      have hd : (rel ++ "." ++ apex ++ ".").data = (rel.data ++ '.' :: apex.data) ++ ['.'] := by
        simp [String.data_append]
      rw [hd, List.getLast?_concat]
    have hun : (UnFqdn (rel ++ "." ++ apex ++ ".")).data = rel.data ++ '.' :: apex.data := by
      rw [UnFqdn, if_pos hl]
      have hd : (rel ++ "." ++ apex ++ ".").data = (rel.data ++ '.' :: apex.data) ++ ['.'] := by
        simp [String.data_append]
      rw [hd, List.dropLast_concat]
    exact extractRecordName_of_data _ _ rel.data hrel hun

/-- C1 (code at the failing inputs): on the claim's own example
`extractRecordName` returns the relative name, but when `"." + apex` occurs
earlier in the name the cut is made at that first occurrence, so for
`rel = "_acme-challenge.example.com"` and for
`rel = "_acme-challenge.example.community"` under the apex `example.com` the
result is `"_acme-challenge"` and not `rel`. -/
theorem extractRecordName_cuts_at_first_occurrence :
    extractRecordName "_acme-challenge.foo.example.com" "example.com" = "_acme-challenge.foo" ∧
    extractRecordName ("_acme-challenge.example.com" ++ "." ++ "example.com") "example.com"
      = "_acme-challenge" ∧
    extractRecordName ("_acme-challenge.example.com" ++ "." ++ "example.com" ++ ".") "example.com"
      = "_acme-challenge" ∧
    extractRecordName ("_acme-challenge.example.community" ++ "." ++ "example.com") "example.com"
      = "_acme-challenge" ∧
    ¬ (∀ rel apex : String, rel ≠ "" →
        extractRecordName (rel ++ "." ++ apex) apex = rel ∧
        extractRecordName (rel ++ "." ++ apex ++ ".") apex = rel) := by
  refine ⟨by decide, by decide, by decide, by decide, ?_⟩
  intro h
  have h1 := (h "_acme-challenge.example.com" "example.com" (by decide)).1
  exact absurd h1 (by decide)

/-- C2 (counterexample): at the zone apex the name is returned whole, not as
the empty string. -/
theorem extractRecordName_apex_counterexample :
    extractRecordName "example.com" "example.com" = "example.com" ∧
    ¬ (∀ apex : String, extractRecordName apex apex = "") := by
  refine ⟨by decide, ?_⟩
  intro h
  exact absurd (h "example.com") (by decide)

/-- C2 (amended): for every apex, `extractRecordName apex apex` is the apex with
its trailing dot removed: the name is left unstripped, `"." + apex` being longer
than the name it is searched in. -/
theorem extractRecordName_apex (apex : String) :
    extractRecordName apex apex = UnFqdn apex := by
  have hlen : (UnFqdn apex).data.length < ("." ++ apex).data.length := by
    have := UnFqdn_length_le apex
    simp only [String.data_append, List.length_append, List.length_singleton]
    omega
  have hidx : Index (UnFqdn apex) ("." ++ apex) = -1 :=
    indexFrom_eq_neg_one_of_length_lt _ _ 0 hlen
  simp [extractRecordName, hidx]

/-- C3 (code at the failing input): `"example.com"` is not matched inside
`"notexample.com"`, which is returned whole; but an occurrence of `"." + apex`
that is not at the end of the name is taken for a match: for the fqdn
`a.example.com.evil.org`, which neither equals `example.com` nor ends with
`.example.com`, the result is the truncated name `a`. -/
theorem extractRecordName_truncates_non_suffix :
    extractRecordName "notexample.com" "example.com" = "notexample.com" ∧
    UnFqdn "a.example.com.evil.org" ≠ "example.com" ∧
    ¬ (".example.com".data <:+ (UnFqdn "a.example.com.evil.org").data) ∧
    extractRecordName "a.example.com.evil.org" "example.com" = "a" ∧
    extractRecordName "a.example.com.evil.org" "example.com" ≠ UnFqdn "a.example.com.evil.org" := by
  refine ⟨by decide, by decide, ?_, by decide, by decide⟩
  rw [← List.isSuffixOf_iff_suffix]
  decide

/-! ## The provider registry -/

/-- A name among the `case` labels is dispatched to a constructor; the
`default` branch is not taken. -/
theorem NewDNSChallengeProviderByName_known {P : Type}
    (construct : ProviderPkg → Option P × Option Error) (name : String)
    (h : name ∈ providerNames) :
    ∃ pkg, NewDNSChallengeProviderByName construct name = construct pkg := by
  simp only [providerNames, List.mem_cons, List.mem_singleton, List.not_mem_nil, or_false] at h
  rcases h with h | h | h | h | h | h | h | h | h | h | h | h | h | h | h | h | h | h | h |
    h | h | h | h | h | h | h | h | h | h | h | h | h | h | h | h | h <;>
  · subst h
    apply Exists.intro
    simp only [NewDNSChallengeProviderByName, String.reduceEq, if_true, if_false]
    rfl

/-- C5: a name that is not exactly one of the `case` labels gets no provider
(`nil`) and the error `unrecognised DNS provider: <name>`, whose message
contains the name verbatim. -/
theorem NewDNSChallengeProviderByName_unknown {P : Type}
    (construct : ProviderPkg → Option P × Option Error) (name : String)
    (h : name ∉ providerNames) :
    NewDNSChallengeProviderByName construct name
      = (none, some ("unrecognised DNS provider: " ++ name)) ∧
    name.data <:+: ("unrecognised DNS provider: " ++ name).data := by
  constructor
  · simp only [providerNames, List.mem_cons, List.mem_singleton, List.not_mem_nil, or_false,
      not_or] at h
    simp [NewDNSChallengeProviderByName, h]
  · rw [String.data_append]
    exact (List.suffix_append _ _).isInfix

/-- C5 at `"bogus-provider"` and at the wrongly-cased `"DNSimple"`. -/
theorem NewDNSChallengeProviderByName_unknown_witness :
    ("bogus-provider" ∉ providerNames ∧
      NewDNSChallengeProviderByName (fun _ => ((some 0 : Option Nat), none)) "bogus-provider"
        = (none, some ("unrecognised DNS provider: " ++ "bogus-provider")) ∧
      "bogus-provider".data <:+: ("unrecognised DNS provider: " ++ "bogus-provider").data) ∧
    ("DNSimple" ∉ providerNames ∧
      NewDNSChallengeProviderByName (fun _ => ((some 0 : Option Nat), none)) "DNSimple"
        = (none, some ("unrecognised DNS provider: " ++ "DNSimple")) ∧
      "DNSimple".data <:+: ("unrecognised DNS provider: " ++ "DNSimple").data) :=
  ⟨⟨by decide, NewDNSChallengeProviderByName_unknown _ "bogus-provider" (by decide)⟩,
   ⟨by decide, NewDNSChallengeProviderByName_unknown _ "DNSimple" (by decide)⟩⟩

/-! ## The journal only observes -/

section Forward

variable {σ : Type}

/-- The account lookup on the journalled client returns what it returns on the
client itself, and leaves the backend in the same state. -/
theorem getAccountID_traced_forward (c : Client σ) (w : σ × List Call) :
    ∃ calls, getAccountID (traced c) w
      = ((getAccountID c w.1).1, ((getAccountID c w.1).2, calls)) := by
  unfold getAccountID
  simp only [traced]
  rcases c.Whoami w.1 with ⟨r, s1⟩
  cases r with
  | error e => exact ⟨_, rfl⟩
  | ok data =>
    cases hd : data.Account with
    | none =>
      refine ⟨w.2 ++ [Call.Whoami (errOf (Except.ok data))], ?_⟩
      simp only [hd]
    | some a =>
      refine ⟨w.2 ++ [Call.Whoami (errOf (Except.ok data))], ?_⟩
      simp only [hd]

/-- Zone resolution on the journalled client returns what it returns on the
client itself, and leaves the backend in the same state. -/
theorem getHostedZone_traced_forward (env : Env) (c : Client σ) (domain : String)
    (w : σ × List Call) :
    ∃ calls, getHostedZone env (traced c) domain w
      = ((getHostedZone env c domain w.1).1, ((getHostedZone env c domain w.1).2, calls)) := by
  unfold getHostedZone
  cases env.FindZoneByFqdn (ToFqdn domain) with
  | error e => exact ⟨w.2, rfl⟩
  | ok authZone =>
    obtain ⟨l1, h1⟩ := getAccountID_traced_forward c w
    simp only [h1]
    rcases getAccountID c w.1 with ⟨r, s1⟩
    cases r with
    | error e => exact ⟨_, rfl⟩
    | ok accountID =>
      simp only [traced]
      rcases c.ListZones accountID (UnFqdn authZone) s1 with ⟨rl, s2⟩
      cases rl with
      | error e => exact ⟨_, rfl⟩
      | ok zones =>
        simp only
        split
        · exact ⟨_, rfl⟩
        · exact ⟨_, rfl⟩

/-- The record lookup on the journalled client returns what it returns on the
client itself, and leaves the backend in the same state. -/
theorem findTxtRecords_traced_forward (env : Env) (c : Client σ) (domain fqdn : String)
    (w : σ × List Call) :
    ∃ calls, findTxtRecords env (traced c) domain fqdn w
      = ((findTxtRecords env c domain fqdn w.1).1,
         ((findTxtRecords env c domain fqdn w.1).2, calls)) := by
  unfold findTxtRecords
  obtain ⟨l1, h1⟩ := getHostedZone_traced_forward env c domain w
  simp only [h1]
  rcases getHostedZone env c domain w.1 with ⟨rz, s1⟩
  cases rz with
  | error e => exact ⟨_, rfl⟩
  | ok zoneName =>
    obtain ⟨l2, h2⟩ := getAccountID_traced_forward c (s1, l1)
    simp only [h2]
    rcases getAccountID c s1 with ⟨ra, s2⟩
    cases ra with
    | error e => exact ⟨_, rfl⟩
    | ok accountID =>
      simp only [traced]
      rcases c.ListRecords accountID zoneName (extractRecordName fqdn zoneName) "TXT" s2
        with ⟨rl, s3⟩
      cases rl with
      | error e => exact ⟨_, rfl⟩
      | ok data => exact ⟨_, rfl⟩

/-- The delete loop on the journalled client returns what it returns on the
client itself, and leaves the backend in the same state. -/
theorem deleteRecords_traced_forward (c : Client σ) (accountID : String) :
    ∀ (records : List ZoneRecord) (w : σ × List Call),
      ∃ calls, deleteRecords (traced c) accountID records w
        = ((deleteRecords c accountID records w.1).1,
           ((deleteRecords c accountID records w.1).2, calls)) := by
  intro records
  induction records with
  | nil => intro w; exact ⟨w.2, rfl⟩
  | cons r rest ih =>
    intro w
    rcases hd : c.DeleteRecord accountID r.ZoneID r.ID w.1 with ⟨res, s1⟩
    cases res with
    | error e =>
      refine ⟨w.2 ++ [Call.DeleteRecord accountID r.ZoneID r.ID (some e)], ?_⟩
      simp [deleteRecords, traced, hd, errOf]
    | ok u =>
      obtain ⟨l, hl⟩ := ih (s1, w.2 ++ [Call.DeleteRecord accountID r.ZoneID r.ID none])
      refine ⟨l, ?_⟩
      simp only [deleteRecords, traced, hd, errOf]
      exact hl

/-- Journalling does not change `Present`: same result, same backend state. -/
theorem Present_traced_forward (env : Env) (c : Client σ) (domain token keyAuth : String)
    (w : σ × List Call) :
    ∃ calls, Present env (traced c) domain token keyAuth w
      = ((Present env c domain token keyAuth w.1).1,
         ((Present env c domain token keyAuth w.1).2, calls)) := by
  unfold Present
  obtain ⟨l1, h1⟩ := getHostedZone_traced_forward env c domain w
  simp only [h1]
  rcases getHostedZone env c domain w.1 with ⟨rz, s1⟩
  cases rz with
  | error e => exact ⟨_, rfl⟩
  | ok zoneName =>
    obtain ⟨l2, h2⟩ := getAccountID_traced_forward c (s1, l1)
    simp only [h2]
    rcases getAccountID c s1 with ⟨ra, s2⟩
    cases ra with
    | error e => exact ⟨_, rfl⟩
    | ok accountID =>
      simp only [traced]
      rcases c.CreateRecord accountID zoneName
          (newTxtRecord zoneName (DNS01Record env domain keyAuth).1
            (DNS01Record env domain keyAuth).2.1 (DNS01Record env domain keyAuth).2.2) s2
        with ⟨rc, s3⟩
      cases rc with
      | error e => exact ⟨_, rfl⟩
      | ok created => exact ⟨_, rfl⟩

/-- Journalling does not change `CleanUp`: same result, same backend state. -/
theorem CleanUp_traced_forward (env : Env) (c : Client σ) (domain token keyAuth : String)
    (w : σ × List Call) :
    ∃ calls, CleanUp env (traced c) domain token keyAuth w
      = ((CleanUp env c domain token keyAuth w.1).1,
         ((CleanUp env c domain token keyAuth w.1).2, calls)) := by
  unfold CleanUp
  obtain ⟨l1, h1⟩ :=
    findTxtRecords_traced_forward env c domain (DNS01Record env domain keyAuth).1 w
  simp only [h1]
  rcases findTxtRecords env c domain (DNS01Record env domain keyAuth).1 w.1 with ⟨rf, s1⟩
  cases rf with
  | error e => exact ⟨_, rfl⟩
  | ok records =>
    obtain ⟨l2, h2⟩ := getAccountID_traced_forward c (s1, l1)
    simp only [h2]
    rcases getAccountID c s1 with ⟨ra, s2⟩
    cases ra with
    | error e => exact ⟨_, rfl⟩
    | ok accountID => exact deleteRecords_traced_forward c accountID records (s2, l2)

end Forward

/-! ## Calls seen through the journal -/

section Traced

variable {σ : Type}

/-- A successful `getAccountID` is one successful identity call. -/
theorem getAccountID_traced_ok (c : Client σ) (w w1 : σ × List Call) (accountID : String)
    (h : getAccountID (traced c) w = (.ok accountID, w1)) :
    w1.2 = w.2 ++ [Call.Whoami none] := by
  unfold getAccountID at h
  simp only [traced] at h
  rcases hw : c.Whoami w.1 with ⟨r, s1⟩
  rw [hw] at h
  cases r with
  | error e => simp at h
  | ok data =>
    cases hd : data.Account with
    | none => simp [hd] at h
    | some a =>
      simp only [hd, Prod.mk.injEq] at h
      rw [← h.2]
      rfl

/-- A successful `getHostedZone` is one successful identity call followed by one
successful `ListZones` call. -/
theorem getHostedZone_traced_ok (env : Env) (c : Client σ) (domain : String)
    (w w1 : σ × List Call) (zoneName : String)
    (h : getHostedZone env (traced c) domain w = (.ok zoneName, w1)) :
    ∃ accountID nameLike,
      w1.2 = w.2 ++ [Call.Whoami none, Call.ListZones accountID nameLike none] := by
  unfold getHostedZone at h
  cases hf : env.FindZoneByFqdn (ToFqdn domain) with
  | error e => simp [hf] at h
  | ok authZone =>
    simp only [hf] at h
    rcases ha : getAccountID (traced c) w with ⟨r, wa⟩
    rw [ha] at h
    cases r with
    | error e => simp at h
    | ok accountID =>
      have hlog := getAccountID_traced_ok c w wa accountID ha
      simp only [traced] at h
      rcases hl : c.ListZones accountID (UnFqdn authZone) wa.1 with ⟨rl, s2⟩
      rw [hl] at h
      cases rl with
      | error e => simp at h
      | ok zones =>
        simp only at h
        split at h
        · simp at h
        · simp only [Prod.mk.injEq] at h
          refine ⟨accountID, UnFqdn authZone, ?_⟩
          rw [← h.2]
          simp [hlog, errOf]

end Traced

section Calls

variable {σ : Type}

/-- The delete loop on the journalled client: either every delete succeeds and
the journal grows by one successful delete per record, in list order, or the
journal grows by the successful deletes of the records before the first
failing one followed by the failing delete, whose error is returned. -/
theorem deleteRecords_traced (c : Client σ) (accountID : String) :
    ∀ (records : List ZoneRecord) (w : σ × List Call),
      ((deleteRecords (traced c) accountID records w).1 = none ∧
        (deleteRecords (traced c) accountID records w).2.2
          = w.2 ++ records.map (fun r => Call.DeleteRecord accountID r.ZoneID r.ID none)) ∨
      (∃ done failed rest err, records = done ++ failed :: rest ∧
        (deleteRecords (traced c) accountID records w).1 = some err ∧
        (deleteRecords (traced c) accountID records w).2.2
          = w.2 ++ done.map (fun r => Call.DeleteRecord accountID r.ZoneID r.ID none)
              ++ [Call.DeleteRecord accountID failed.ZoneID failed.ID (some err)]) := by
  intro records
  induction records with
  | nil =>
    intro w
    left
    simp [deleteRecords]
  | cons r rest ih =>
    intro w
    rcases hd : c.DeleteRecord accountID r.ZoneID r.ID w.1 with ⟨res, s1⟩
    cases res with
    | error e =>
      right
      refine ⟨[], r, rest, e, rfl, ?_, ?_⟩
      · simp [deleteRecords, traced, hd]
      · simp [deleteRecords, traced, hd, errOf]
    | ok u =>
      have hstep : deleteRecords (traced c) accountID (r :: rest) w
          = deleteRecords (traced c) accountID rest
              (s1, w.2 ++ [Call.DeleteRecord accountID r.ZoneID r.ID none]) := by
        simp [deleteRecords, traced, hd, errOf]
      rw [hstep]
      rcases ih (s1, w.2 ++ [Call.DeleteRecord accountID r.ZoneID r.ID none]) with h | h
      · left
        refine ⟨h.1, ?_⟩
        rw [h.2]
        simp
      · right
        obtain ⟨done, failed, rest2, err, hrec, herr, hlog⟩ := h
        refine ⟨r :: done, failed, rest2, err, ?_, herr, ?_⟩
        · simp [hrec]
        · rw [hlog]
          simp

/-- C8: when `findTxtRecords` has returned `records` and the account lookup has
succeeded, `CleanUp` issues its `DeleteRecord` calls in list order, one per
record, up to the first one that fails. Either no delete fails, `CleanUp`
returns `nil` and the calls made are one successful delete for every listed
record; or the calls made are the successful deletes of the records before the
first failing one, then the failing delete, `CleanUp` returns the error of that
delete, and no call is made for the records after it. -/
theorem CleanUp_deletes_until_first_failure (env : Env) (c : Client σ)
    (domain token keyAuth : String) (w w1 w2 : σ × List Call)
    (records : List ZoneRecord) (accountID : String)
    (hf : findTxtRecords env (traced c) domain (DNS01Record env domain keyAuth).1 w
      = (.ok records, w1))
    (ha : getAccountID (traced c) w1 = (.ok accountID, w2)) :
    ((CleanUp env (traced c) domain token keyAuth w).1 = none ∧
      (CleanUp env (traced c) domain token keyAuth w).2.2
        = w2.2 ++ records.map (fun r => Call.DeleteRecord accountID r.ZoneID r.ID none)) ∨
    (∃ done failed rest err, records = done ++ failed :: rest ∧
      (CleanUp env (traced c) domain token keyAuth w).1 = some err ∧
      (CleanUp env (traced c) domain token keyAuth w).2.2
        = w2.2 ++ done.map (fun r => Call.DeleteRecord accountID r.ZoneID r.ID none)
            ++ [Call.DeleteRecord accountID failed.ZoneID failed.ID (some err)]) := by
  have hrun : CleanUp env (traced c) domain token keyAuth w
      = deleteRecords (traced c) accountID records w2 := by
    simp only [CleanUp, hf, ha]
  rw [hrun]
  exact deleteRecords_traced c accountID records w2

/-- C8 on the sample account with three challenge records, the second of which
the backend refuses to delete: `CleanUp` deletes the first, fails on the second
and makes no call for the third. -/
theorem CleanUp_deletes_until_first_failure_witness :
    (CleanUp sampleEnv (traced (refuseDelete 2 memClient)) "www.example.com" "tok" "ka"
        (sampleThree, [])).1 = some "record is locked" ∧
    (((CleanUp sampleEnv (traced (refuseDelete 2 memClient)) "www.example.com" "tok" "ka"
          (sampleThree, [])).1 = none ∧
        (CleanUp sampleEnv (traced (refuseDelete 2 memClient)) "www.example.com" "tok" "ka"
          (sampleThree, [])).2.2
          = (lookupCalls ++ [Call.ListRecords "1" "example.com" "_acme-challenge.www" "TXT" none,
              Call.Whoami none])
            ++ [sampleRecord 1, sampleRecord 2, sampleRecord 3].map
                (fun r => Call.DeleteRecord "1" r.ZoneID r.ID none)) ∨
      (∃ done failed rest err,
        [sampleRecord 1, sampleRecord 2, sampleRecord 3] = done ++ failed :: rest ∧
        (CleanUp sampleEnv (traced (refuseDelete 2 memClient)) "www.example.com" "tok" "ka"
          (sampleThree, [])).1 = some err ∧
        (CleanUp sampleEnv (traced (refuseDelete 2 memClient)) "www.example.com" "tok" "ka"
          (sampleThree, [])).2.2
          = (lookupCalls ++ [Call.ListRecords "1" "example.com" "_acme-challenge.www" "TXT" none,
              Call.Whoami none])
            ++ done.map (fun r => Call.DeleteRecord "1" r.ZoneID r.ID none)
            ++ [Call.DeleteRecord "1" failed.ZoneID failed.ID (some err)])) :=
  ⟨by decide,
   CleanUp_deletes_until_first_failure sampleEnv (refuseDelete 2 memClient)
    "www.example.com" "tok" "ka" (sampleThree, [])
    (sampleThree, lookupCalls ++
      [Call.ListRecords "1" "example.com" "_acme-challenge.www" "TXT" none])
    (sampleThree, lookupCalls ++
      [Call.ListRecords "1" "example.com" "_acme-challenge.www" "TXT" none, Call.Whoami none])
    [sampleRecord 1, sampleRecord 2, sampleRecord 3] "1" rfl rfl⟩

end Calls

section PresentCalls

variable {σ : Type}

/-- The journal entry and the result of `Present` once the zone and the account
are resolved: one `CreateRecord` call is appended, and the result is its error,
wrapped. -/
theorem Present_traced_step (env : Env) (c : Client σ) (domain token keyAuth : String)
    (w w1 w2 : σ × List Call) (zoneName accountID : String)
    (hz : getHostedZone env (traced c) domain w = (.ok zoneName, w1))
    (ha : getAccountID (traced c) w1 = (.ok accountID, w2)) :
    Present env (traced c) domain token keyAuth w
      = ((errOf (c.CreateRecord accountID zoneName
            (newTxtRecord zoneName (DNS01Record env domain keyAuth).1
              (DNS01Record env domain keyAuth).2.1 (DNS01Record env domain keyAuth).2.2)
            w2.1).1).map (fun err => "DNSimple API call failed: " ++ err),
         ((c.CreateRecord accountID zoneName
            (newTxtRecord zoneName (DNS01Record env domain keyAuth).1
              (DNS01Record env domain keyAuth).2.1 (DNS01Record env domain keyAuth).2.2)
            w2.1).2,
          w2.2 ++ [Call.CreateRecord accountID zoneName
            (newTxtRecord zoneName (DNS01Record env domain keyAuth).1
              (DNS01Record env domain keyAuth).2.1 (DNS01Record env domain keyAuth).2.2)
            (errOf (c.CreateRecord accountID zoneName
              (newTxtRecord zoneName (DNS01Record env domain keyAuth).1
                (DNS01Record env domain keyAuth).2.1 (DNS01Record env domain keyAuth).2.2)
              w2.1).1)])) := by
  simp only [Present, hz, ha]
  have ht : ∀ (a z : String) (r : ZoneRecord) (v : σ × List Call),
      (traced c).CreateRecord a z r v
        = ((c.CreateRecord a z r v.1).1,
           ((c.CreateRecord a z r v.1).2,
            v.2 ++ [Call.CreateRecord a z r (errOf (c.CreateRecord a z r v.1).1)])) :=
    fun _ _ _ _ => rfl
  rw [ht]
  rcases hc : c.CreateRecord accountID zoneName
      (newTxtRecord zoneName (DNS01Record env domain keyAuth).1
        (DNS01Record env domain keyAuth).2.1 (DNS01Record env domain keyAuth).2.2) w2.1
    with ⟨r, s3⟩
  cases r <;> simp [errOf]

/-- C9: when zone resolution and the identity lookup succeed, the calls `Present`
makes contain exactly one `CreateRecord` call and no `ListRecords` call; the
created record has type `TXT`, the name `extractRecordName fqdn zone`, the
challenge value as content and the challenge TTL; and `Present` returns `nil`
exactly when that create call succeeds. -/
theorem Present_issues_one_create (env : Env) (c : Client σ) (domain token keyAuth : String)
    (w w1 w2 : σ × List Call) (zoneName accountID : String)
    (hz : getHostedZone env (traced c) domain w = (.ok zoneName, w1))
    (ha : getAccountID (traced c) w1 = (.ok accountID, w2)) :
    ∃ (calls : List Call) (attributes : ZoneRecord) (err : Option Error),
      (Present env (traced c) domain token keyAuth w).2.2 = w.2 ++ calls ∧
      calls.filter Call.isCreateRecord = [Call.CreateRecord accountID zoneName attributes err] ∧
      calls.filter Call.isListRecords = [] ∧
      attributes.Type_ = "TXT" ∧
      attributes.Name = extractRecordName (DNS01Record env domain keyAuth).1 zoneName ∧
      attributes.Content = (DNS01Record env domain keyAuth).2.1 ∧
      attributes.TTL = (DNS01Record env domain keyAuth).2.2 ∧
      err = errOf (c.CreateRecord accountID zoneName attributes w2.1).1 ∧
      ((Present env (traced c) domain token keyAuth w).1 = none ↔ err = none) := by
  obtain ⟨acc0, nameLike, hlog1⟩ := getHostedZone_traced_ok env c domain w w1 zoneName hz
  have hlog2 := getAccountID_traced_ok c w1 w2 accountID ha
  rw [Present_traced_step env c domain token keyAuth w w1 w2 zoneName accountID hz ha]
  obtain ⟨attributes, hattr⟩ : ∃ a : ZoneRecord, a = newTxtRecord zoneName
      (DNS01Record env domain keyAuth).1 (DNS01Record env domain keyAuth).2.1
      (DNS01Record env domain keyAuth).2.2 := ⟨_, rfl⟩
  rw [← hattr]
  refine ⟨[Call.Whoami none, Call.ListZones acc0 nameLike none, Call.Whoami none,
      Call.CreateRecord accountID zoneName attributes
        (errOf (c.CreateRecord accountID zoneName attributes w2.1).1)],
    attributes, errOf (c.CreateRecord accountID zoneName attributes w2.1).1,
    ?_, ?_, ?_, ?_, ?_, ?_, ?_, rfl, ?_⟩
  · simp [hlog2, hlog1]
  · simp [List.filter, Call.isCreateRecord]
  · simp [List.filter, Call.isListRecords]
  · rw [hattr]; rfl
  · rw [hattr]; rfl
  · rw [hattr]; rfl
  · rw [hattr]; rfl
  · simp

/-- C9 on the sample account: `Present` for `www.example.com` creates the `TXT`
record `_acme-challenge.www` in the zone `example.com`. -/
theorem Present_issues_one_create_witness :
    getHostedZone sampleEnv (traced memClient) "www.example.com" (sampleState, [])
      = (.ok "example.com",
         (sampleState, [Call.Whoami none, Call.ListZones "1" "example.com" none])) ∧
    getAccountID (traced memClient)
        (sampleState, [Call.Whoami none, Call.ListZones "1" "example.com" none])
      = (.ok "1", (sampleState, lookupCalls)) ∧
    ∃ (calls : List Call) (attributes : ZoneRecord) (err : Option Error),
      (Present sampleEnv (traced memClient) "www.example.com" "tok" "ka"
          (sampleState, [])).2.2 = [] ++ calls ∧
      calls.filter Call.isCreateRecord = [Call.CreateRecord "1" "example.com" attributes err] ∧
      calls.filter Call.isListRecords = [] ∧
      attributes.Type_ = "TXT" ∧
      attributes.Name
        = extractRecordName (DNS01Record sampleEnv "www.example.com" "ka").1 "example.com" ∧
      attributes.Content = (DNS01Record sampleEnv "www.example.com" "ka").2.1 ∧
      attributes.TTL = (DNS01Record sampleEnv "www.example.com" "ka").2.2 ∧
      err = errOf (memClient.CreateRecord "1" "example.com" attributes sampleState).1 ∧
      ((Present sampleEnv (traced memClient) "www.example.com" "tok" "ka"
          (sampleState, [])).1 = none ↔ err = none) :=
  ⟨rfl, rfl,
   Present_issues_one_create sampleEnv memClient "www.example.com" "tok" "ka"
    (sampleState, [])
    (sampleState, [Call.Whoami none, Call.ListZones "1" "example.com" none])
    (sampleState, lookupCalls) "example.com" "1" rfl rfl⟩

/-- C6: when zone resolution and the identity lookups succeed and `ListRecords`
returns the empty list for the challenge record name and type `TXT`, `CleanUp`
returns `nil` and the calls it makes contain no `DeleteRecord` call. -/
theorem CleanUp_nothing_to_delete (env : Env) (c : Client σ) (domain token keyAuth : String)
    (w w1 w2 w3 w4 : σ × List Call) (zoneName accountID accountID2 : String)
    (hz : getHostedZone env (traced c) domain w = (.ok zoneName, w1))
    (ha : getAccountID (traced c) w1 = (.ok accountID, w2))
    (hl : (traced c).ListRecords accountID zoneName
        (extractRecordName (DNS01Record env domain keyAuth).1 zoneName) "TXT" w2 = (.ok [], w3))
    (ha2 : getAccountID (traced c) w3 = (.ok accountID2, w4)) :
    CleanUp env (traced c) domain token keyAuth w = (none, w4) ∧
    ∃ calls : List Call, w4.2 = w.2 ++ calls ∧ calls.filter Call.isDeleteRecord = [] := by
  obtain ⟨acc0, nameLike, hlog1⟩ := getHostedZone_traced_ok env c domain w w1 zoneName hz
  have hlog2 := getAccountID_traced_ok c w1 w2 accountID ha
  have hlog4 := getAccountID_traced_ok c w3 w4 accountID2 ha2
  have hlog3 : w3.2 = w2.2 ++ [Call.ListRecords accountID zoneName
      (extractRecordName (DNS01Record env domain keyAuth).1 zoneName) "TXT" none] := by
    have ht : (traced c).ListRecords accountID zoneName
        (extractRecordName (DNS01Record env domain keyAuth).1 zoneName) "TXT" w2
        = ((c.ListRecords accountID zoneName
              (extractRecordName (DNS01Record env domain keyAuth).1 zoneName) "TXT" w2.1).1,
           ((c.ListRecords accountID zoneName
              (extractRecordName (DNS01Record env domain keyAuth).1 zoneName) "TXT" w2.1).2,
            w2.2 ++ [Call.ListRecords accountID zoneName
              (extractRecordName (DNS01Record env domain keyAuth).1 zoneName) "TXT"
              (errOf (c.ListRecords accountID zoneName
                (extractRecordName (DNS01Record env domain keyAuth).1 zoneName) "TXT"
                w2.1).1)])) := rfl
    rw [ht] at hl
    simp only [Prod.mk.injEq] at hl
    rw [← hl.2, hl.1]
    rfl
  constructor
  · simp only [CleanUp, findTxtRecords, hz, ha, hl, ha2, deleteRecords]
  · refine ⟨[Call.Whoami none, Call.ListZones acc0 nameLike none, Call.Whoami none,
      Call.ListRecords accountID zoneName
        (extractRecordName (DNS01Record env domain keyAuth).1 zoneName) "TXT" none,
      Call.Whoami none], ?_, ?_⟩
    · simp [hlog4, hlog3, hlog2, hlog1]
    · simp [List.filter, Call.isDeleteRecord]

/-- C6 on the sample account, which has no record: `CleanUp` for
`www.example.com` succeeds without a delete call. -/
theorem CleanUp_nothing_to_delete_witness :
    (traced memClient).ListRecords "1" "example.com"
        (extractRecordName (DNS01Record sampleEnv "www.example.com" "ka").1 "example.com")
        "TXT" (sampleState, lookupCalls)
      = (.ok [], (sampleState, lookupCalls ++
          [Call.ListRecords "1" "example.com" "_acme-challenge.www" "TXT" none])) ∧
    CleanUp sampleEnv (traced memClient) "www.example.com" "tok" "ka" (sampleState, [])
      = (none, (sampleState, lookupCalls ++
          [Call.ListRecords "1" "example.com" "_acme-challenge.www" "TXT" none,
           Call.Whoami none])) ∧
    ∃ calls : List Call,
      lookupCalls ++ [Call.ListRecords "1" "example.com" "_acme-challenge.www" "TXT" none,
          Call.Whoami none] = [] ++ calls ∧
      calls.filter Call.isDeleteRecord = [] :=
  ⟨rfl,
   CleanUp_nothing_to_delete sampleEnv memClient "www.example.com" "tok" "ka"
    (sampleState, [])
    (sampleState, [Call.Whoami none, Call.ListZones "1" "example.com" none])
    (sampleState, lookupCalls)
    (sampleState, lookupCalls ++
      [Call.ListRecords "1" "example.com" "_acme-challenge.www" "TXT" none])
    (sampleState, lookupCalls ++
      [Call.ListRecords "1" "example.com" "_acme-challenge.www" "TXT" none, Call.Whoami none])
    "example.com" "1" "1" rfl rfl rfl rfl⟩

end PresentCalls

/-! ## The hosted zone -/

section HostedZone

variable {σ : Type}

/-- The zone loop keeps the last zone of the list whose name is `zoneName`, and
the initial value when there is none. -/
theorem selectHostedZone_eq (zoneName : String) :
    ∀ (zones : List Zone) (hostedZone : Zone),
      selectHostedZone zoneName zones hostedZone
        = ((zones.filter (fun z => decide (z.Name = zoneName))).getLast?).getD hostedZone := by
  intro zones
  induction zones with
  | nil => intro hostedZone; rfl
  | cons z rest ih =>
    intro hostedZone
    rw [selectHostedZone, ih]
    by_cases hz : z.Name = zoneName
    · simp only [hz, if_true, List.filter_cons, decide_True, List.getLast?_cons,
        Option.getD_some]
    · simp only [hz, if_false, List.filter_cons, decide_False, Bool.false_eq_true]

/-- C7 (counterexample): the backend lists a zone whose name is exactly the
apex, with identifier `0`, and `getHostedZone` fails with the zone-not-found
error. -/
theorem getHostedZone_zero_ID_counterexample :
    sampleEnv.FindZoneByFqdn (ToFqdn "www.example.com") = .ok "example.com." ∧
    (memClient.ListZones "1" (UnFqdn "example.com.") zeroIDState).1
      = .ok [{ ID := 0, Name := "example.com" }] ∧
    ({ ID := 0, Name := "example.com" } : Zone).Name = UnFqdn "example.com." ∧
    getHostedZone sampleEnv memClient "www.example.com" zeroIDState
      = (.error "zone example.com. not found in DNSimple for domain www.example.com",
         zeroIDState) := by
  refine ⟨rfl, rfl, by decide, rfl⟩

/-- C7 (amended): when the DNS lookup, the account lookup and `ListZones`
succeed, `getHostedZone` succeeds if and only if the list contains a zone whose
name is exactly the apex with its trailing dot removed and the last such zone
of the list has a non-zero `ID`; it then returns that name. Zones with any
other name play no part, and in every other case the result is the
zone-not-found error. -/
theorem getHostedZone_exact_name (env : Env) (c : Client σ) (domain : String) (s s1 s2 : σ)
    (authZone accountID : String) (zones : List Zone)
    (hf : env.FindZoneByFqdn (ToFqdn domain) = .ok authZone)
    (ha : getAccountID c s = (.ok accountID, s1))
    (hl : c.ListZones accountID (UnFqdn authZone) s1 = (.ok zones, s2)) :
    ((∃ name, (getHostedZone env c domain s).1 = .ok name) ↔
      ∃ z, (zones.filter (fun z => decide (z.Name = UnFqdn authZone))).getLast? = some z ∧
        z.ID ≠ 0) ∧
    (∀ name, (getHostedZone env c domain s).1 = .ok name → name = UnFqdn authZone) ∧
    ((¬ ∃ z, (zones.filter (fun z => decide (z.Name = UnFqdn authZone))).getLast? = some z ∧
        z.ID ≠ 0) →
      getHostedZone env c domain s
        = (.error ("zone " ++ authZone ++ " not found in DNSimple for domain " ++ domain),
           s2)) := by
  have hrun : getHostedZone env c domain s
      = if (((zones.filter (fun z => decide (z.Name = UnFqdn authZone))).getLast?).getD
            default).ID = 0
        then (.error ("zone " ++ authZone ++ " not found in DNSimple for domain " ++ domain),
              s2)
        else (.ok (((zones.filter (fun z => decide (z.Name = UnFqdn authZone))).getLast?).getD
            default).Name, s2) := by
    simp only [getHostedZone, hf, ha, hl, selectHostedZone_eq]
  rw [hrun]
  cases hlast : (zones.filter (fun z => decide (z.Name = UnFqdn authZone))).getLast? with
  | none =>
    have hd : (default : Zone).ID = 0 := rfl
    simp [hd]
  | some z =>
    have hmem := List.mem_of_getLast?_eq_some hlast
    have hname : z.Name = UnFqdn authZone := by
      simpa using (List.mem_filter.mp hmem).2
    by_cases hid : z.ID = 0
    · simp [hid]
    · simp [hid, hname]

/-- C7 (amended) on the sample account, which hosts `example.com` under the
identifier `7`. -/
theorem getHostedZone_exact_name_witness :
    ((∃ name, (getHostedZone sampleEnv memClient "www.example.com" sampleState).1 = .ok name) ↔
      ∃ z, ([({ ID := 7, Name := "example.com" } : Zone)].filter
          (fun z => decide (z.Name = UnFqdn "example.com."))).getLast? = some z ∧ z.ID ≠ 0) ∧
    (∀ name, (getHostedZone sampleEnv memClient "www.example.com" sampleState).1 = .ok name →
      name = UnFqdn "example.com.") ∧
    ((¬ ∃ z, ([({ ID := 7, Name := "example.com" } : Zone)].filter
          (fun z => decide (z.Name = UnFqdn "example.com."))).getLast? = some z ∧ z.ID ≠ 0) →
      getHostedZone sampleEnv memClient "www.example.com" sampleState
        = (.error ("zone " ++ "example.com." ++ " not found in DNSimple for domain "
            ++ "www.example.com"), sampleState)) :=
  getHostedZone_exact_name sampleEnv memClient "www.example.com" sampleState sampleState
    sampleState "example.com." "1" [{ ID := 7, Name := "example.com" }] rfl rfl rfl

end HostedZone

/-! ## Identity calls -/

section Identity

variable {σ : Type}

/-- A successful `findTxtRecords` is a successful zone resolution, one more
successful identity call and one successful `ListRecords` call. -/
theorem findTxtRecords_traced_ok (env : Env) (c : Client σ) (domain fqdn : String)
    (w w1 : σ × List Call) (records : List ZoneRecord)
    (h : findTxtRecords env (traced c) domain fqdn w = (.ok records, w1)) :
    ∃ a nameLike a2 zone name,
      w1.2 = w.2 ++ [Call.Whoami none, Call.ListZones a nameLike none, Call.Whoami none,
        Call.ListRecords a2 zone name "TXT" none] := by
  unfold findTxtRecords at h
  rcases hz : getHostedZone env (traced c) domain w with ⟨rz, wz⟩
  rw [hz] at h
  cases rz with
  | error e => simp at h
  | ok zoneName =>
    obtain ⟨a, nameLike, hlog1⟩ := getHostedZone_traced_ok env c domain w wz zoneName hz
    simp only at h
    rcases ha : getAccountID (traced c) wz with ⟨ra, wa⟩
    rw [ha] at h
    cases ra with
    | error e => simp at h
    | ok accountID =>
      have hlog2 := getAccountID_traced_ok c wz wa accountID ha
      have ht : (traced c).ListRecords accountID zoneName (extractRecordName fqdn zoneName)
          "TXT" wa
          = ((c.ListRecords accountID zoneName (extractRecordName fqdn zoneName) "TXT" wa.1).1,
             ((c.ListRecords accountID zoneName (extractRecordName fqdn zoneName) "TXT"
                wa.1).2,
              wa.2 ++ [Call.ListRecords accountID zoneName (extractRecordName fqdn zoneName)
                "TXT" (errOf (c.ListRecords accountID zoneName
                  (extractRecordName fqdn zoneName) "TXT" wa.1).1)])) := rfl
      simp only [ht] at h
      rcases hl : c.ListRecords accountID zoneName (extractRecordName fqdn zoneName) "TXT" wa.1
        with ⟨rl, s3⟩
      rw [hl] at h
      cases rl with
      | error e => simp at h
      | ok data =>
        simp only [Prod.mk.injEq] at h
        refine ⟨a, nameLike, accountID, zoneName, extractRecordName fqdn zoneName, ?_⟩
        rw [← h.2]
        simp [hlog2, hlog1, errOf]

/-- A successful `Present` makes four calls, two of which are identity calls. -/
theorem Present_traced_ok (env : Env) (c : Client σ) (domain token keyAuth : String)
    (w : σ × List Call)
    (h : (Present env (traced c) domain token keyAuth w).1 = none) :
    ∃ a nameLike a2 zone attributes,
      (Present env (traced c) domain token keyAuth w).2.2
        = w.2 ++ [Call.Whoami none, Call.ListZones a nameLike none, Call.Whoami none,
            Call.CreateRecord a2 zone attributes none] := by
  rcases hz : getHostedZone env (traced c) domain w with ⟨rz, wz⟩
  cases rz with
  | error e => simp [Present, hz] at h
  | ok zoneName =>
    obtain ⟨a, nameLike, hlog1⟩ := getHostedZone_traced_ok env c domain w wz zoneName hz
    rcases ha : getAccountID (traced c) wz with ⟨ra, wa⟩
    cases ra with
    | error e => simp [Present, hz, ha] at h
    | ok accountID =>
      have hlog2 := getAccountID_traced_ok c wz wa accountID ha
      rw [Present_traced_step env c domain token keyAuth w wz wa zoneName accountID hz ha]
        at h ⊢
      simp only [Option.map_eq_none'] at h
      refine ⟨a, nameLike, accountID, zoneName,
        newTxtRecord zoneName (DNS01Record env domain keyAuth).1
          (DNS01Record env domain keyAuth).2.1 (DNS01Record env domain keyAuth).2.2, ?_⟩
      simp [h, hlog2, hlog1]

/-- The delete calls are no identity calls. -/
theorem countP_isWhoami_deletes (accountID : String) (records : List ZoneRecord) :
    (records.map (fun r => Call.DeleteRecord accountID r.ZoneID r.ID none)).countP
      Call.isWhoami = 0 := by
  induction records with
  | nil => rfl
  | cons r rest ih => simp [List.countP_cons, Call.isWhoami, ih]

/-- A successful `CleanUp` makes three identity calls. -/
theorem CleanUp_traced_ok (env : Env) (c : Client σ) (domain token keyAuth : String)
    (w : σ × List Call)
    (h : (CleanUp env (traced c) domain token keyAuth w).1 = none) :
    ∃ calls, (CleanUp env (traced c) domain token keyAuth w).2.2 = w.2 ++ calls ∧
      calls.countP Call.isWhoami = 3 := by
  rcases hf : findTxtRecords env (traced c) domain (DNS01Record env domain keyAuth).1 w
    with ⟨rf, wf⟩
  cases rf with
  | error e => simp [CleanUp, hf] at h
  | ok records =>
    obtain ⟨a, nameLike, a2, zone, name, hlog1⟩ :=
      findTxtRecords_traced_ok env c domain _ w wf records hf
    rcases ha : getAccountID (traced c) wf with ⟨ra, wa⟩
    cases ra with
    | error e => simp [CleanUp, hf, ha] at h
    | ok accountID =>
      have hlog2 := getAccountID_traced_ok c wf wa accountID ha
      have hrun : CleanUp env (traced c) domain token keyAuth w
          = deleteRecords (traced c) accountID records wa := by
        simp only [CleanUp, hf, ha]
      rw [hrun] at h ⊢
      rcases deleteRecords_traced c accountID records wa with hok | hbad
      · refine ⟨[Call.Whoami none, Call.ListZones a nameLike none, Call.Whoami none,
            Call.ListRecords a2 zone name "TXT" none, Call.Whoami none]
            ++ records.map (fun r => Call.DeleteRecord accountID r.ZoneID r.ID none), ?_, ?_⟩
        · rw [hok.2, hlog2, hlog1]
          simp
        · rw [List.countP_append, countP_isWhoami_deletes]
          rfl
      · obtain ⟨_, _, _, err, _, herr, _⟩ := hbad
        rw [h] at herr
        cases herr

end Identity

section Memo

variable {σ : Type}

/-- C10 (counterexample): one successful `Present` on the sample account issues
two identity calls, not one. -/
theorem Present_two_identity_calls_counterexample :
    (Present sampleEnv (traced memClient) "www.example.com" "tok" "ka" (sampleState, [])).1
      = none ∧
    (Present sampleEnv (traced memClient) "www.example.com" "tok" "ka" (sampleState, [])).2.2
      = [Call.Whoami none, Call.ListZones "1" "example.com" none, Call.Whoami none,
         Call.CreateRecord "1" "example.com"
           { ID := 0, ZoneID := "", Name := "_acme-challenge.www", Content := "ka",
             TTL := 120, Type_ := "TXT" } none] ∧
    ((Present sampleEnv (traced memClient) "www.example.com" "tok" "ka"
        (sampleState, [])).2.2.countP Call.isWhoami) ≠ 1 := by
  refine ⟨by decide, by decide, by decide⟩

/-- C10 (amended): the account identifier is not memoized, every use of
`getAccountID` is a fresh identity call. Over any sequence of `Present` and
`CleanUp` calls on one provider that all return `nil`, the number of identity
calls is two for every `Present` plus three for every `CleanUp`. -/
theorem identity_calls_per_operation (env : Env) (c : Client σ) :
    ∀ (ops : List Op) (w : σ × List Call),
      (∀ e ∈ (runOps env (traced c) ops w).1, e = none) →
      ∃ calls, (runOps env (traced c) ops w).2.2 = w.2 ++ calls ∧
        calls.countP Call.isWhoami
          = 2 * ops.countP Op.isPresent + 3 * ops.countP Op.isCleanUp := by
  intro ops
  induction ops with
  | nil =>
    intro w _
    exact ⟨[], by simp [runOps], by simp⟩
  | cons op ops ih =>
    intro w h
    have hhead : (op.run env (traced c) w).1 = none := h _ (by simp [runOps])
    have htail : ∀ e ∈ (runOps env (traced c) ops (op.run env (traced c) w).2).1, e = none :=
      fun e he => h e (by simp [runOps, he])
    obtain ⟨rest, hrest, hcount⟩ := ih (op.run env (traced c) w).2 htail
    cases op with
    | Present domain token keyAuth =>
      obtain ⟨a, nameLike, a2, zone, attributes, hlog⟩ :=
        Present_traced_ok env c domain token keyAuth w hhead
      refine ⟨[Call.Whoami none, Call.ListZones a nameLike none, Call.Whoami none,
        Call.CreateRecord a2 zone attributes none] ++ rest, ?_, ?_⟩
      · simp only [runOps, hrest]
        simp only [Op.run, hlog, List.append_assoc]
      · rw [List.countP_append, hcount]
        simp [List.countP_cons, Call.isWhoami, Op.isPresent, Op.isCleanUp]
        omega
    | CleanUp domain token keyAuth =>
      obtain ⟨calls, hlog, hthree⟩ := CleanUp_traced_ok env c domain token keyAuth w hhead
      refine ⟨calls ++ rest, ?_, ?_⟩
      · simp only [runOps, hrest]
        simp only [Op.run, hlog, List.append_assoc]
      · rw [List.countP_append, hcount, hthree]
        simp [List.countP_cons, Op.isPresent, Op.isCleanUp]
        omega

/-- C10 (amended) on the sample account: a `Present` followed by a `CleanUp`
issues five identity calls. -/
theorem identity_calls_per_operation_witness :
    (∀ e ∈ (runOps sampleEnv (traced memClient)
        [Op.Present "www.example.com" "tok" "ka", Op.CleanUp "www.example.com" "tok" "ka"]
        (sampleState, [])).1, e = none) ∧
    ∃ calls, (runOps sampleEnv (traced memClient)
        [Op.Present "www.example.com" "tok" "ka", Op.CleanUp "www.example.com" "tok" "ka"]
        (sampleState, [])).2.2 = ([] : List Call) ++ calls ∧
      calls.countP Call.isWhoami
        = 2 * [Op.Present "www.example.com" "tok" "ka",
            Op.CleanUp "www.example.com" "tok" "ka"].countP Op.isPresent
          + 3 * [Op.Present "www.example.com" "tok" "ka",
            Op.CleanUp "www.example.com" "tok" "ka"].countP Op.isCleanUp :=
  ⟨by decide,
   identity_calls_per_operation sampleEnv memClient
    [Op.Present "www.example.com" "tok" "ka", Op.CleanUp "www.example.com" "tok" "ka"]
    (sampleState, []) (by decide)⟩

end Memo

/-! ## Present and CleanUp against the in-memory backend -/

section Memory

/-- The account lookup on the in-memory backend. -/
theorem getAccountID_mem (s : MemState) :
    getAccountID memClient s
      = (match s.account with
          | none =>
            .error "DNSimple user tokens are not supported, please use an account token"
          | some account => .ok (toString account.ID), s) := by
  unfold getAccountID
  simp only [memClient]
  cases s.account <;> rfl

/-- Zone resolution on the in-memory backend leaves the state as it is. -/
theorem getHostedZone_mem_state (env : Env) (domain : String) (s : MemState) :
    (getHostedZone env memClient domain s).2 = s := by
  unfold getHostedZone
  cases env.FindZoneByFqdn (ToFqdn domain) with
  | error e => rfl
  | ok authZone =>
    simp only [getAccountID_mem]
    cases s.account with
    | none => rfl
    | some a =>
      simp only [memClient]
      split <;> rfl

/-- Zone resolution on the in-memory backend depends on the account and on the
zones only. -/
theorem getHostedZone_mem_congr (env : Env) (domain : String) (s t : MemState)
    (ha : s.account = t.account) (hz : s.zones = t.zones) :
    (getHostedZone env memClient domain s).1 = (getHostedZone env memClient domain t).1 := by
  unfold getHostedZone
  cases env.FindZoneByFqdn (ToFqdn domain) with
  | error e => rfl
  | ok authZone =>
    simp only [getAccountID_mem, ← ha]
    cases s.account with
    | none => rfl
    | some a =>
      simp only [memClient, ← hz]
      split <;> rfl

/-- When zone resolution succeeds on the in-memory backend, so does the account
lookup. -/
theorem getAccountID_mem_of_zone (env : Env) (domain zoneName : String) (s : MemState)
    (hz : (getHostedZone env memClient domain s).1 = .ok zoneName) :
    ∃ accountID, getAccountID memClient s = (.ok accountID, s) := by
  rw [getAccountID_mem]
  cases hacc : s.account with
  | some a => exact ⟨_, rfl⟩
  | none =>
    exfalso
    unfold getHostedZone at hz
    cases hf : env.FindZoneByFqdn (ToFqdn domain) with
    | error e => simp [hf] at hz
    | ok authZone => simp [hf, getAccountID_mem, hacc] at hz

/-- The state after a `Present` on the in-memory backend: the challenge record
is appended under the next unused identifier. -/
theorem Present_mem (env : Env) (domain token keyAuth zoneName : String) (s : MemState)
    (hz : (getHostedZone env memClient domain s).1 = .ok zoneName) :
    Present env memClient domain token keyAuth s
      = (none,
         { s with
           records := s.records ++
             [{ newTxtRecord zoneName (DNS01Record env domain keyAuth).1
                  (DNS01Record env domain keyAuth).2.1 (DNS01Record env domain keyAuth).2.2 with
                ID := s.nextID, ZoneID := zoneName }],
           nextID := s.nextID + 1 }) := by
  have hz2 : getHostedZone env memClient domain s = (.ok zoneName, s) :=
    Prod.ext hz (getHostedZone_mem_state env domain s)
  obtain ⟨accountID, ha⟩ := getAccountID_mem_of_zone env domain zoneName s hz
  simp only [Present, hz2, ha]
  rfl

/-- The record that `Present` creates is a `TXT` record of the zone under the
challenge record name. -/
theorem matchesRecord_created (zoneName fqdn value : String) (ttl id : Int) :
    matchesRecord zoneName (extractRecordName fqdn zoneName) "TXT"
      { newTxtRecord zoneName fqdn value ttl with ID := id, ZoneID := zoneName } = true := by
  simp [matchesRecord, newTxtRecord]

/-- Repeated `Present` calls on the in-memory backend all succeed, keep the
state well formed and the zone resolvable, and add one matching record each. -/
theorem runOps_presents_mem (env : Env) (domain token keyAuth zoneName : String) :
    ∀ (n : Nat) (s : MemState), s.WF →
      (getHostedZone env memClient domain s).1 = .ok zoneName →
      (∀ e ∈ (runOps env memClient (List.replicate n (Op.Present domain token keyAuth)) s).1,
        e = none) ∧
      (runOps env memClient (List.replicate n (Op.Present domain token keyAuth)) s).2.WF ∧
      (getHostedZone env memClient domain
        (runOps env memClient (List.replicate n (Op.Present domain token keyAuth)) s).2).1
        = .ok zoneName ∧
      ((runOps env memClient (List.replicate n (Op.Present domain token keyAuth)) s).2.records.filter
        (matchesRecord zoneName (extractRecordName (DNS01Record env domain keyAuth).1 zoneName)
          "TXT")).length
        = (s.records.filter
            (matchesRecord zoneName
              (extractRecordName (DNS01Record env domain keyAuth).1 zoneName) "TXT")).length
          + n := by
  intro n
  induction n with
  | zero =>
    intro s hwf hz
    simp [runOps, hwf, hz]
  | succ n ih =>
    intro s hwf hz
    have hp := Present_mem env domain token keyAuth zoneName s hz
    have hwf1 : (Present env memClient domain token keyAuth s).2.WF := by
      rw [hp]
      refine ⟨?_, ?_⟩
      · simp only [List.map_append, List.map_cons, List.map_nil]
        rw [List.nodup_append]
        refine ⟨hwf.1, List.nodup_singleton _, ?_⟩
        intro a ha hb
        simp only [List.mem_singleton] at hb
        obtain ⟨r, hr, hra⟩ := List.mem_map.mp ha
        have := hwf.2 r hr
        omega
      · intro r hr
        simp only [List.mem_append, List.mem_singleton] at hr
        rcases hr with hr | hr
        · have := hwf.2 r hr
          show r.ID < s.nextID + 1
          omega
        · rw [hr]
          show s.nextID < s.nextID + 1
          omega
    have hz1 : (getHostedZone env memClient domain
        (Present env memClient domain token keyAuth s).2).1 = .ok zoneName := by
      rw [← hz, hp]
      exact getHostedZone_mem_congr env domain _ _ rfl rfl
    obtain ⟨hnone, hwfn, hzn, hlen⟩ := ih _ hwf1 hz1
    simp only [List.replicate_succ, runOps, Op.run]
    refine ⟨?_, hwfn, hzn, ?_⟩
    · intro e he
      simp only [List.mem_cons] at he
      rcases he with he | he
      · rw [he, hp]
      · exact hnone e he
    · rw [hlen, hp]
      simp only [List.filter_append, List.length_append]
      rw [List.filter_cons_of_pos (matchesRecord_created _ _ _ _ _)]
      simp only [List.filter_nil, List.length_singleton]
      omega

end Memory

section MemoryCleanUp

/-- Running a sequence of calls in two parts. -/
theorem runOps_append {σ : Type} (env : Env) (c : Client σ) :
    ∀ (ops more : List Op) (s : σ),
      runOps env c (ops ++ more) s
        = ((runOps env c ops s).1 ++ (runOps env c more (runOps env c ops s).2).1,
           (runOps env c more (runOps env c ops s).2).2) := by
  intro ops
  induction ops with
  | nil => intro more s; rfl
  | cons op ops ih =>
    intro more s
    rw [List.cons_append, runOps, ih]
    rfl

/-- The delete loop on the in-memory backend: when the records to delete are in
the store and have pairwise distinct identifiers, every delete succeeds, none
of them is left and nothing is added. -/
theorem deleteRecords_mem (accountID : String) :
    ∀ (records : List ZoneRecord) (s : MemState),
      (∀ r ∈ records, r ∈ s.records) → (records.map (fun r => r.ID)).Nodup →
      ∃ t, deleteRecords memClient accountID records s = (none, t) ∧
        (∀ r ∈ t.records, r ∈ s.records) ∧ (∀ r ∈ records, r ∉ t.records) := by
  intro records
  induction records with
  | nil =>
    intro s _ _
    exact ⟨s, rfl, fun _ h => h, fun _ h => by cases h⟩
  | cons r rest ih =>
    intro s hmem hnodup
    have hr : r ∈ s.records := hmem r (List.mem_cons_self _ _)
    have hany : s.records.any (isRecord r.ZoneID r.ID) = true :=
      List.any_eq_true.mpr ⟨r, hr, by simp [isRecord]⟩
    have hstep : deleteRecords memClient accountID (r :: rest) s
        = deleteRecords memClient accountID rest
            { s with records := s.records.filter (fun x => !isRecord r.ZoneID r.ID x) } := by
      rw [deleteRecords]
      simp only [memClient, hany, if_true]
    rw [List.map_cons, List.nodup_cons] at hnodup
    have hrest : ∀ x ∈ rest, x ∈ s.records.filter (fun x => !isRecord r.ZoneID r.ID x) := by
      intro x hx
      refine List.mem_filter.mpr ⟨hmem x (List.mem_cons_of_mem _ hx), ?_⟩
      have hne : x.ID ≠ r.ID := by
        intro heq
        exact hnodup.1 (List.mem_map.mpr ⟨x, hx, heq⟩)
      simp [isRecord, hne]
    obtain ⟨t, hrun, hsub, hgone⟩ :=
      ih { s with records := s.records.filter (fun x => !isRecord r.ZoneID r.ID x) }
        hrest hnodup.2
    refine ⟨t, by rw [hstep, hrun], ?_, ?_⟩
    · intro x hx
      exact (List.mem_filter.mp (hsub x hx)).1
    · intro x hx hxt
      rcases List.mem_cons.mp hx with hxr | hxr
      · have := (List.mem_filter.mp (hsub x hxt)).2
        simp [isRecord, hxr] at this
      · exact hgone x hxr hxt

/-- The outcome of `CleanUp` on a well-formed in-memory backend whose zone
resolves: no error, and no `TXT` record with the challenge record name is left
in the zone. -/
theorem CleanUp_mem (env : Env) (domain token keyAuth zoneName : String) (s : MemState)
    (hwf : s.WF) (hz : (getHostedZone env memClient domain s).1 = .ok zoneName) :
    (CleanUp env memClient domain token keyAuth s).1 = none ∧
    (CleanUp env memClient domain token keyAuth s).2.records.filter
      (matchesRecord zoneName (extractRecordName (DNS01Record env domain keyAuth).1 zoneName)
        "TXT") = [] := by
  have hz2 : getHostedZone env memClient domain s = (.ok zoneName, s) :=
    Prod.ext hz (getHostedZone_mem_state env domain s)
  obtain ⟨accountID, ha⟩ := getAccountID_mem_of_zone env domain zoneName s hz
  have hfind : findTxtRecords env memClient domain (DNS01Record env domain keyAuth).1 s
      = (.ok (s.records.filter
          (matchesRecord zoneName
            (extractRecordName (DNS01Record env domain keyAuth).1 zoneName) "TXT")), s) := by
    simp only [findTxtRecords, hz2, ha]
    rfl
  have hrun : CleanUp env memClient domain token keyAuth s
      = deleteRecords memClient accountID
          (s.records.filter
            (matchesRecord zoneName
              (extractRecordName (DNS01Record env domain keyAuth).1 zoneName) "TXT")) s := by
    simp only [CleanUp, hfind, ha]
  have hnodup : ((s.records.filter
      (matchesRecord zoneName
        (extractRecordName (DNS01Record env domain keyAuth).1 zoneName) "TXT")).map
      (fun r => r.ID)).Nodup :=
    (List.filter_sublist _).map _ |>.nodup hwf.1
  obtain ⟨t, hdel, hsub, hgone⟩ := deleteRecords_mem accountID _ s
    (fun r hr => (List.mem_filter.mp hr).1) hnodup
  rw [hrun, hdel]
  refine ⟨rfl, ?_⟩
  rw [List.filter_eq_nil_iff]
  intro r hr hmatch
  exact hgone r (List.mem_filter.mpr ⟨hsub r hr, hmatch⟩) hr

/-- C4: on a well-formed in-memory backend whose zone resolution (and with it
the identity lookup) succeeds, `n` calls of `Present` for a domain followed by
one `CleanUp` for it all return `nil`; the `n` calls of `Present` add `n`
records with the challenge record name, and after the `CleanUp` the zone has no
`TXT` record with that name. This holds for every `n`, zero included. -/
theorem Present_repeated_then_CleanUp (env : Env) (domain token keyAuth zoneName : String)
    (n : Nat) (s : MemState) (hwf : s.WF)
    (hz : (getHostedZone env memClient domain s).1 = .ok zoneName) :
    (∀ e ∈ (runOps env memClient
        (List.replicate n (Op.Present domain token keyAuth)
          ++ [Op.CleanUp domain token keyAuth]) s).1, e = none) ∧
    ((runOps env memClient (List.replicate n (Op.Present domain token keyAuth))
        s).2.records.filter
      (matchesRecord zoneName (extractRecordName (DNS01Record env domain keyAuth).1 zoneName)
        "TXT")).length
      = (s.records.filter
          (matchesRecord zoneName
            (extractRecordName (DNS01Record env domain keyAuth).1 zoneName) "TXT")).length
        + n ∧
    (runOps env memClient
        (List.replicate n (Op.Present domain token keyAuth)
          ++ [Op.CleanUp domain token keyAuth]) s).2.records.filter
      (matchesRecord zoneName (extractRecordName (DNS01Record env domain keyAuth).1 zoneName)
        "TXT") = [] := by
  obtain ⟨hnone, hwfn, hzn, hlen⟩ :=
    runOps_presents_mem env domain token keyAuth zoneName n s hwf hz
  obtain ⟨hclean, hleft⟩ := CleanUp_mem env domain token keyAuth zoneName _ hwfn hzn
  rw [runOps_append]
  refine ⟨?_, hlen, ?_⟩
  · intro e he
    simp only [List.mem_append] at he
    rcases he with he | he
    · exact hnone e he
    · simp only [runOps, Op.run, List.mem_singleton] at he
      rw [he, hclean]
  · simpa only [runOps, Op.run] using hleft

/-- C4 on the sample account with three challenge records already in the zone:
two more `Present` calls and one `CleanUp`. -/
theorem Present_repeated_then_CleanUp_witness :
    sampleThree.WF ∧
    (getHostedZone sampleEnv memClient "www.example.com" sampleThree).1 = .ok "example.com" ∧
    (∀ e ∈ (runOps sampleEnv memClient
        (List.replicate 2 (Op.Present "www.example.com" "tok" "ka")
          ++ [Op.CleanUp "www.example.com" "tok" "ka"]) sampleThree).1, e = none) ∧
    ((runOps sampleEnv memClient (List.replicate 2 (Op.Present "www.example.com" "tok" "ka"))
        sampleThree).2.records.filter
      (matchesRecord "example.com"
        (extractRecordName (DNS01Record sampleEnv "www.example.com" "ka").1 "example.com")
        "TXT")).length
      = (sampleThree.records.filter
          (matchesRecord "example.com"
            (extractRecordName (DNS01Record sampleEnv "www.example.com" "ka").1 "example.com")
            "TXT")).length + 2 ∧
    (runOps sampleEnv memClient
        (List.replicate 2 (Op.Present "www.example.com" "tok" "ka")
          ++ [Op.CleanUp "www.example.com" "tok" "ka"]) sampleThree).2.records.filter
      (matchesRecord "example.com"
        (extractRecordName (DNS01Record sampleEnv "www.example.com" "ka").1 "example.com")
        "TXT") = [] :=
  have hwf : sampleThree.WF := by
    unfold MemState.WF
    decide
  ⟨hwf, rfl,
   Present_repeated_then_CleanUp sampleEnv "www.example.com" "tok" "ka" "example.com" 2
    sampleThree hwf rfl⟩

end MemoryCleanUp

end Lego
